import Mathlib

set_option maxRecDepth 8192

/-!
Shallow embedding of `tools/virtio/ringtest/ring.c`: a fixed-capacity
single-producer/single-consumer descriptor ring with a 16-bit event-index
notification tie-break.  Machine integers are modelled as `Nat` with explicit
reduction modulo `2^16` (`unsigned short`) and `2^32` (`unsigned`) where the C
code can overflow.  The shared globals (`ring`, `data`, `guest`, `host`,
`event`) are collected into one state record and every C function becomes a
pure state transformer.
-/

namespace RingC

def DESC_HW : Nat := 0x80
def DESC_WRAP : Nat := 0x40
def W16 : Nat := 65536
def W32 : Nat := 4294967296

/-- Truncating 16-bit subtraction: `(unsigned short)(a - b)` for unsigned
operands, i.e. `(a - b) mod 2^16`. -/
def sub16 (a b : Nat) : Nat := (a % W16 + W16 - b % W16) % W16

/-- Truncating 32-bit subtraction: `(unsigned)(a - b)`. -/
def sub32 (a b : Nat) : Nat := (a % W32 + W32 - b % W32) % W32

/-- `need_event(event, next, prev)` from ring.c:
`(unsigned short)(next - event - 1) < (unsigned short)(next - prev)`. -/
def need_event (event next prev : Nat) : Bool :=
  decide (sub16 (sub16 next event) 1 < sub16 next prev)

/-- One ring slot (`struct desc`): buffer address, length, stable slot
identifier (`unsigned short`), flags (`DESC_HW`/`DESC_WRAP` bits). -/
structure Desc where
  addr : Nat
  len : Nat
  index : Nat
  flags : Nat
  deriving DecidableEq

/-- One shadow-table entry (`struct data`): the original buffer pointer and
the caller-supplied opaque tag.  `0` models the NULL pointer. -/
structure DataEntry where
  buf : Nat
  data : Nat
  deriving DecidableEq

/-- Producer-side private state (`struct guest`). -/
structure Guest where
  wrap : Nat
  avail_idx : Nat
  last_used_idx : Nat
  num_free : Nat
  kicked_avail_idx : Nat
  deriving DecidableEq

/-- Consumer-side private state (`struct host`). -/
structure Host where
  wrap : Nat
  used_idx : Nat
  called_used_idx : Nat
  deriving DecidableEq

/-- Notification state (`struct event`): the two armed event indices. -/
structure EventIdx where
  kick_index : Nat
  call_index : Nat
  deriving DecidableEq

/-- The whole shared-memory state of the benchmark ring. -/
structure RingState where
  ring : Nat → Desc
  data : Nat → DataEntry
  guest : Guest
  host : Host
  event : EventIdx

/-- `(ring_size - 1) & x`, the power-of-two masking used for all cursor to
slot-position conversions. -/
def mask (N x : Nat) : Nat := (N - 1) &&& x

/-- Initial value of descriptor `i` as set by `alloc_ring`:
`struct desc desc = { .index = i };` (all other fields zero-initialised,
`index` is an `unsigned short`). -/
def initDesc (i : Nat) : Desc := { addr := 0, len := 0, index := i % W16, flags := 0 }

/-- `alloc_ring` after successful allocation: descriptors get their own
position as `index`, the shadow table is zeroed, both generation bits start
at `0x40`, the free count is the capacity and both "last notified" indices
are `(unsigned)-1`. -/
def alloc_ring (N : Nat) : RingState :=
  { ring := fun i => initDesc i
    data := fun _ => { buf := 0, data := 0 }
    guest := { wrap := 0x40, avail_idx := 0, last_used_idx := 0,
               num_free := N, kicked_avail_idx := W32 - 1 }
    host := { wrap := 0x40, used_idx := 0, called_used_idx := W32 - 1 }
    event := { kick_index := 0, call_index := 0 } }

/-- `alloc_ring` including the three fallible allocations: any failure calls
`exit(3)` (modelled as `Except.error 3`) before the state is built. -/
def alloc_ring_checked (N : Nat) (ringOk eventOk dataOk : Bool) : Except Nat RingState :=
  if !ringOk then .error 3
  else if !eventOk then .error 3
  else if !dataOk then .error 3
  else .ok (alloc_ring N)

/-- The wrap-bit toggle `if (w == 0x40) w = 0; else if (w == 0) w = 0x40;`
shared by `add_inbuf` and `use_buf`. -/
def toggleWrap (w : Nat) : Nat :=
  if w = 0x40 then 0 else if w = 0 then 0x40 else w

/-- `add_inbuf(len, buf, datap, flags)` (guest side).  Returns the new state
and `true` for success (`0`) or `false` for ring-full (`-1`).  Note the C
code ignores its `flags` parameter. -/
def add_inbuf (N len buf datap fl : Nat) (s : RingState) : RingState × Bool :=
  if s.guest.num_free = 0 then (s, false)
  else
    let head := mask N s.guest.avail_idx
    let wrap' := if head = 0 then toggleWrap s.guest.wrap else s.guest.wrap
    let d0 := s.ring head
    let d1 := { d0 with addr := buf, len := len % W32 }
    let index := d1.index
    let d2 := { d1 with flags := DESC_HW ||| wrap' }
    ({ s with
        ring := Function.update s.ring head d2
        data := Function.update s.data index { buf := buf, data := datap }
        guest := { s.guest with
                    num_free := s.guest.num_free - 1
                    avail_idx := (s.guest.avail_idx + 1) % W32
                    wrap := wrap' } },
     true)
  -- unused `fl` mirrors the ignored C parameter
  -- (the C code writes `DESC_HW | guest.wrap`, not the flags given by the caller)

/-- The three out-parameter cells of `get_buf` (`*lenp`, `*bufp`, `*flags`). -/
structure GetBufOut where
  lenp : Nat
  bufp : Nat
  flagsp : Nat
  deriving DecidableEq

/-- `get_buf(lenp, bufp, flags)` (guest side reclaim).  Returns the new
state, the out-parameter cells after the call, and `some datap` when the
success path ran (the C function returns `datap`, `none` models the early
`return NULL`). -/
def get_buf (N : Nat) (s : RingState) (out : GetBufOut) :
    RingState × GetBufOut × Option Nat :=
  let head := mask N s.guest.last_used_idx
  if (s.ring head).flags &&& DESC_HW ≠ 0 then (s, out, none)
  else
    let index := (s.ring head).index &&& (N - 1)
    let datap := (s.data index).data
    let bufv := (s.data index).buf
    ({ s with
        data := Function.update s.data index { buf := 0, data := 0 }
        guest := { s.guest with
                    num_free := (s.guest.num_free + 1) % W32
                    last_used_idx := (s.guest.last_used_idx + 1) % W32 } },
     { lenp := (s.ring head).len, bufp := bufv, flagsp := (s.ring head).flags },
     some datap)

/-- The out-parameter cells of `use_buf`. -/
structure UseBufOut where
  lenp : Nat
  bufp : Nat
  flagsp : Nat
  deriving DecidableEq

/-- `use_buf(lenp, bufp, flags)` (host side claim-and-complete).  The wrap
bit is toggled when the claim cursor is at slot 0 *before* the ownership and
generation checks; on success the length is decremented, the pre-completion
flags are stored to `*flags`, the slot flags are rewritten to the host wrap
value and the cursor advances.  The C code never writes `*lenp`/`*bufp`. -/
def use_buf (N : Nat) (s : RingState) (out : UseBufOut) :
    RingState × UseBufOut × Bool :=
  let head := mask N s.host.used_idx
  let hwrap := if head = 0 then toggleWrap s.host.wrap else s.host.wrap
  let s1 := { s with host := { s.host with wrap := hwrap } }
  if (s1.ring head).flags &&& DESC_HW = 0 then (s1, out, false)
  else if (s1.ring head).flags &&& DESC_WRAP ≠ hwrap then (s1, out, false)
  else
    let d0 := s1.ring head
    let d1 := { d0 with len := (d0.len + W32 - 1) % W32 }
    let d2 := { d1 with flags := if hwrap ≠ 0 then DESC_WRAP else 0 }
    ({ s1 with
        ring := Function.update s1.ring head d2
        host := { s1.host with used_idx := (s1.host.used_idx + 1) % W32 } },
     { out with flagsp := d1.flags },
     true)

/-- `kick_available` (guest side): consult `need_event` with the armed
consumer index, the current avail index and the last kicked index; on a hit,
record the new kicked index and invoke the external `kick()` (the Boolean
result records whether it was invoked). -/
def kick_available (s : RingState) : RingState × Bool :=
  if need_event s.event.kick_index s.guest.avail_idx s.guest.kicked_avail_idx then
    ({ s with guest := { s.guest with kicked_avail_idx := s.guest.avail_idx } }, true)
  else (s, false)

/-- `call_used` (host side): the symmetric suppression check for `call()`. -/
def call_used (s : RingState) : RingState × Bool :=
  if need_event s.event.call_index s.host.used_idx s.host.called_used_idx then
    ({ s with host := { s.host with called_used_idx := s.host.used_idx } }, true)
  else (s, false)

/-- One operation of the two endpoints. -/
inductive Op where
  | publish (len buf datap fl : Nat)
  | reclaim
  | useBuf
  deriving DecidableEq

/-- Apply one operation to the state (out-parameter cells start zeroed;
they never feed back into the shared state). -/
def applyOp (N : Nat) (s : RingState) : Op → RingState
  | .publish len buf datap fl => (add_inbuf N len buf datap fl s).1
  | .reclaim => (get_buf N s ⟨0, 0, 0⟩).1
  | .useBuf => (use_buf N s ⟨0, 0, 0⟩).1

/-- Run a whole operation sequence. -/
def runState (N : Nat) (s : RingState) (ops : List Op) : RingState :=
  ops.foldl (applyOp N) s

/-- Every `publish` in the sequence is issued with a nonzero free count. -/
def pubSafeFrom (N : Nat) (s : RingState) : List Op → Bool
  | [] => true
  | op :: rest =>
    (match op with
     | .publish _ _ _ _ => decide (s.guest.num_free ≠ 0)
     | _ => true) && pubSafeFrom N (applyOp N s op) rest

/-- Every `reclaim` in the sequence is issued while some published buffer is
still outstanding (the two guest cursors differ). -/
def recSafeFrom (N : Nat) (s : RingState) : List Op → Bool
  | [] => true
  | op :: rest =>
    (match op with
     | .reclaim => decide (s.guest.last_used_idx ≠ s.guest.avail_idx)
     | _ => true) && recSafeFrom N (applyOp N s op) rest

/-- Tags (`datap` arguments) of the successful publishes, in order. -/
def pubTags (N : Nat) (s : RingState) : List Op → List Nat
  | [] => []
  | .publish len buf datap fl :: rest =>
    (if (add_inbuf N len buf datap fl s).2 then [datap] else []) ++
      pubTags N (applyOp N s (.publish len buf datap fl)) rest
  | op :: rest => pubTags N (applyOp N s op) rest

/-- Values returned by the success path of `get_buf`, in order. -/
def recTags (N : Nat) (s : RingState) : List Op → List Nat
  | [] => []
  | .reclaim :: rest =>
    (match (get_buf N s ⟨0, 0, 0⟩).2.2 with
     | some v => [v]
     | none => []) ++ recTags N (applyOp N s .reclaim) rest
  | op :: rest => recTags N (applyOp N s op) rest

end RingC

/-- Concrete state for the C9 witness: capacity-4 ring whose last-notified
indices already match the cursors. -/
def c9State : RingC.RingState :=
  { RingC.alloc_ring 4 with
      guest := { (RingC.alloc_ring 4).guest with kicked_avail_idx := 0 }
      host := { (RingC.alloc_ring 4).host with called_used_idx := 0 } }

/-- Concrete trace refuting C3 as stated (capacity 2): a reclaim on the
empty ring spuriously succeeds and shifts the reclaim cursor by one slot,
after which the tags 11 and 22 come back in reversed order. -/
def c3CexOps : List RingC.Op :=
  [.reclaim, .publish 5 100 11 0, .publish 5 101 22 0, .useBuf, .useBuf,
   .reclaim, .reclaim]

/-- Concrete well-formed trace for the C3 witness (capacity 2). -/
def c3OkOps : List RingC.Op :=
  [.publish 5 100 11 0, .publish 5 101 22 0, .useBuf, .useBuf, .reclaim, .reclaim]

/-- One full lap of a capacity-4 ring: four publishes with tags
`t+1 … t+4`, four completions, four reclaims. -/
def lapOps (t : Nat) : List RingC.Op :=
  [.publish 5 100 (t + 1) 0, .publish 5 101 (t + 2) 0, .publish 5 102 (t + 3) 0,
   .publish 5 103 (t + 4) 0, .useBuf, .useBuf, .useBuf, .useBuf,
   .reclaim, .reclaim, .reclaim, .reclaim]

/-- Guest generation bit after `k` publishes into a fresh capacity-`N` ring. -/
def wrapAfterPubs (N k : Nat) : Nat :=
  (RingC.runState N (RingC.alloc_ring N)
    (List.replicate k (.publish 5 9 9 0))).guest.wrap

/-- Concrete state after one publish into a capacity-1 ring (C6 scenario). -/
def c6State : RingC.RingState :=
  RingC.runState 1 (RingC.alloc_ring 1) [.publish 5 100 11 0]

/-- Concrete state on which all three non-blocking failure paths fire at
once (capacity 2): ring full, slot at the reclaim cursor still
device-owned, slot at the claim cursor carrying the wrong generation bit. -/
def c7AllState : RingC.RingState :=
  { ring := fun _ => { addr := 0, len := 0, index := 0, flags := 0xC0 }
    data := fun _ => { buf := 0, data := 0 }
    guest := { wrap := 0x40, avail_idx := 2, last_used_idx := 0,
               num_free := 0, kicked_avail_idx := 0 }
    host := { wrap := 0, used_idx := 1, called_used_idx := 0 }
    event := { kick_index := 0, call_index := 0 } }

namespace RingC

/-- Generation bit with which ring entry `m` is published (and later
completed): the guest wrap value toggles at the first publish of each lap,
so entry `m` of lap `m / N` carries `0` on even laps and `DESC_WRAP` on odd
laps (the initial value is `DESC_WRAP` and the very first publish toggles
it to `0`). -/
def wgN (N m : Nat) : Nat := if (m / N) % 2 = 0 then 0 else DESC_WRAP

/-- Guest generation bit after `a` successful publishes. -/
def gw (N a : Nat) : Nat := if a = 0 then DESC_WRAP else wgN N (a - 1)

/-- Contents of the slot whose most recent ring entry is `m`, given `u`
completions and `l` reclaims so far and the list `tags` of published tags:
an in-flight entry carries `DESC_HW` plus its lap bit and its tag is still
in the shadow table; a completed entry carries just its lap bit, with the
shadow entry cleared once the entry has been reclaimed. -/
def slotSpec (u l : Nat) (tags : List Nat) (m N : Nat)
    (d : Desc) (de : DataEntry) : Prop :=
  if u ≤ m then
    d.flags = DESC_HW ||| wgN N m ∧ de.data = tags.getD m 0
  else
    d.flags = wgN N m ∧ de.data = (if m < l then 0 else tags.getD m 0)

/-- Invariant of ring position `i` after `a` publishes, `u` completions and
`l` reclaims: either the slot was never written (flags and shadow entry
zero), or it holds the unique entry `m ∈ [a - N, a)` with `m ≡ i (mod N)`. -/
def descInv (N a u l : Nat) (tags : List Nat) (d : Desc) (de : DataEntry)
    (i : Nat) : Prop :=
  (a ≤ i → d.flags = 0 ∧ de.data = 0) ∧
  (i < a → ∃ m, m < a ∧ a ≤ m + N ∧ m % N = i ∧ slotSpec u l tags m N d de)

/-- Ghost description of a reachable protocol state: total publish count
`a`, completion count `u`, reclaim count `l`, and the published tags in
order. -/
structure Ghost where
  a : Nat
  u : Nat
  l : Nat
  tags : List Nat

/-- The reachability invariant tying the concrete ring state to its ghost
counters, for traces that never reclaim from an empty ring. -/
structure Inv (N : Nat) (s : RingState) (g : Ghost) : Prop where
  hlu : g.l ≤ g.u
  hua : g.u ≤ g.a
  hal : g.a ≤ g.l + N
  hlen : g.tags.length = g.a
  havail : s.guest.avail_idx = g.a % W32
  hlast : s.guest.last_used_idx = g.l % W32
  hused : s.host.used_idx = g.u % W32
  hfree : s.guest.num_free = N - (g.a - g.l)
  hgw : s.guest.wrap = gw N g.a
  hhw01 : s.host.wrap = 0 ∨ s.host.wrap = DESC_WRAP
  hhw : g.u % N ≠ 0 → s.host.wrap = gw N g.u
  hidx : ∀ i, i < N → (s.ring i).index = i % W16
  hslots : ∀ i, i < N → descInv N g.a g.u g.l g.tags (s.ring i) (s.data i) i

end RingC

namespace RingC

/-! ### Basic facts about the 16-bit tie-break -/

theorem need_event_self (e n p : Nat) (h : n % W16 = p % W16) :
    need_event e n p = false := by
  simp only [need_event, sub16, W16] at *
  rw [decide_eq_false_iff_not]
  omega

theorem need_event_advance (e p d : Nat) (hd : d < W16) :
    need_event e (p + d) p = decide (sub16 e p < d) := by
  simp only [need_event, sub16, W16] at *
  rw [decide_eq_decide]
  omega

theorem take_sum_le (advs : List Nat) (i : Nat) :
    (advs.take i).sum ≤ advs.sum := by
  conv_rhs => rw [← List.take_append_drop i advs]
  rw [List.sum_append]
  omega

end RingC

/-- C1: the tie-break over 16-bit indices returns true iff
`(next - event - 1) mod 2^16 < (next - prev) mod 2^16`, and the four
concrete vectors from the spec evaluate as stated. -/
theorem c1_need_event_exact (e n p : Nat) (he : e < RingC.W16) (hn : n < RingC.W16)
    (hp : p < RingC.W16) :
    (RingC.need_event e n p = true ↔
      ((n : Int) - e - 1) % 65536 < ((n : Int) - p) % 65536)
    ∧ RingC.need_event 5 10 5 = true
    ∧ RingC.need_event 10 10 5 = false
    ∧ RingC.need_event 0 0 0 = false
    ∧ RingC.need_event 65535 2 65534 = true := by
  refine ⟨?_, by decide, by decide, by decide, by decide⟩
  simp only [RingC.need_event, RingC.sub16, RingC.W16, decide_eq_true_eq] at *
  omega

/-- Witness for C1 at the concrete input (5, 10, 5). -/
theorem c1_need_event_exact_witness :
    (RingC.need_event 5 10 5 = true ↔
      ((10 : Int) - 5 - 1) % 65536 < ((10 : Int) - 5) % 65536)
    ∧ RingC.need_event 5 10 5 = true
    ∧ RingC.need_event 10 10 5 = false
    ∧ RingC.need_event 0 0 0 = false
    ∧ RingC.need_event 65535 2 65534 = true :=
  c1_need_event_exact 5 10 5 (by decide) (by decide) (by decide)

/-- C2: telescoping of the tie-break.  For a fixed requested index `e` and
last-notified index `p`, and a monotonically advancing current index that
starts at `p` and advances by `advs` (total advance below `2^16`), evaluating
the tie-break once against the final index equals the logical OR of
evaluating it after every intermediate advance. -/
theorem c2_telescoping (e p : Nat) (advs : List Nat) (h : advs.sum < RingC.W16) :
    RingC.need_event e (p + advs.sum) p =
      (List.range advs.length).any
        (fun i => RingC.need_event e (p + (advs.take (i + 1)).sum) p) := by
  have hchar : ∀ i : Nat, RingC.need_event e (p + (advs.take (i + 1)).sum) p =
      decide (RingC.sub16 e p < (advs.take (i + 1)).sum) := fun i =>
    RingC.need_event_advance e p _ (lt_of_le_of_lt (RingC.take_sum_le advs (i + 1)) h)
  rw [RingC.need_event_advance e p _ h]
  by_cases hc : RingC.sub16 e p < advs.sum
  · have hne : advs ≠ [] := by
      intro hnil; rw [hnil] at hc; simp at hc
    have hlen : 0 < advs.length := List.length_pos.mpr hne
    rw [decide_eq_true hc, eq_comm, List.any_eq_true]
    refine ⟨advs.length - 1, List.mem_range.mpr (by omega), ?_⟩
    rw [hchar, Nat.sub_add_cancel hlen, List.take_length, decide_eq_true hc]
  · rw [decide_eq_false hc, eq_comm, List.any_eq_false]
    intro i _
    rw [hchar i]
    simp only [decide_eq_true_eq]
    have h2 := RingC.take_sum_le advs (i + 1)
    omega

/-- Witness for C2 at `e = 5`, `p = 5`, advances `[3, 2]`. -/
theorem c2_telescoping_witness :
    RingC.need_event 5 (5 + [3, 2].sum) 5 =
      (List.range ([3, 2] : List Nat).length).any
        (fun i => RingC.need_event 5 (5 + (([3, 2] : List Nat).take (i + 1)).sum) 5) :=
  c2_telescoping 5 5 [3, 2] (by decide)

/-- C9: no redundant signaling without progress.  `need_event e n n` is
always false; when the monitored index has not advanced since the last
notification, `kick_available`/`call_used` suppress the signal and leave the
state unchanged; and the last-notified index is updated exactly when the
external primitive is invoked. -/
theorem c9_suppression (e n : Nat) (s t : RingC.RingState)
    (hs : s.guest.kicked_avail_idx % RingC.W16 = s.guest.avail_idx % RingC.W16)
    (ht : t.host.called_used_idx % RingC.W16 = t.host.used_idx % RingC.W16) :
    RingC.need_event e n n = false
    ∧ RingC.kick_available s = (s, false)
    ∧ RingC.call_used t = (t, false)
    ∧ (∀ u : RingC.RingState, (RingC.kick_available u).2 = false →
        (RingC.kick_available u).1 = u)
    ∧ (∀ u : RingC.RingState, (RingC.kick_available u).2 = true →
        (RingC.kick_available u).1.guest.kicked_avail_idx = u.guest.avail_idx
        ∧ u.guest.kicked_avail_idx % RingC.W16 ≠ u.guest.avail_idx % RingC.W16)
    ∧ (∀ u : RingC.RingState, (RingC.call_used u).2 = false →
        (RingC.call_used u).1 = u)
    ∧ (∀ u : RingC.RingState, (RingC.call_used u).2 = true →
        (RingC.call_used u).1.host.called_used_idx = u.host.used_idx
        ∧ u.host.called_used_idx % RingC.W16 ≠ u.host.used_idx % RingC.W16) := by
  refine ⟨RingC.need_event_self e n n rfl, ?_, ?_, ?_, ?_, ?_, ?_⟩
  · rw [RingC.kick_available, RingC.need_event_self _ _ _ hs.symm]
    simp
  · rw [RingC.call_used, RingC.need_event_self _ _ _ ht.symm]
    simp
  · intro u hu
    by_cases hc : RingC.need_event u.event.kick_index u.guest.avail_idx
        u.guest.kicked_avail_idx = true <;>
      simp [RingC.kick_available, hc] at hu ⊢
  · intro u hu
    by_cases hc : RingC.need_event u.event.kick_index u.guest.avail_idx
        u.guest.kicked_avail_idx = true <;>
      simp [RingC.kick_available, hc] at hu ⊢
    intro heq
    rw [RingC.need_event_self _ _ _ heq.symm] at hc
    exact Bool.false_ne_true hc
  · intro u hu
    by_cases hc : RingC.need_event u.event.call_index u.host.used_idx
        u.host.called_used_idx = true <;>
      simp [RingC.call_used, hc] at hu ⊢
  · intro u hu
    by_cases hc : RingC.need_event u.event.call_index u.host.used_idx
        u.host.called_used_idx = true <;>
      simp [RingC.call_used, hc] at hu ⊢
    intro heq
    rw [RingC.need_event_self _ _ _ heq.symm] at hc
    exact Bool.false_ne_true hc

/-- Witness for C9 on the freshly allocated ring with capacity 4 after
forcing both last-notified indices to match the cursors. -/
theorem c9_suppression_witness :
    RingC.need_event 7 3 3 = false
    ∧ RingC.kick_available c9State = (c9State, false)
    ∧ RingC.call_used c9State = (c9State, false)
    ∧ (∀ u : RingC.RingState, (RingC.kick_available u).2 = false →
        (RingC.kick_available u).1 = u)
    ∧ (∀ u : RingC.RingState, (RingC.kick_available u).2 = true →
        (RingC.kick_available u).1.guest.kicked_avail_idx = u.guest.avail_idx
        ∧ u.guest.kicked_avail_idx % RingC.W16 ≠ u.guest.avail_idx % RingC.W16)
    ∧ (∀ u : RingC.RingState, (RingC.call_used u).2 = false →
        (RingC.call_used u).1 = u)
    ∧ (∀ u : RingC.RingState, (RingC.call_used u).2 = true →
        (RingC.call_used u).1.host.called_used_idx = u.host.used_idx
        ∧ u.host.called_used_idx % RingC.W16 ≠ u.host.used_idx % RingC.W16) :=
  c9_suppression 7 3 c9State c9State (by decide) (by decide)

namespace RingC

/-! ### Small structural lemmas about the operations -/

theorem mask_lt (N x : Nat) (h : 0 < N) : mask N x < N :=
  lt_of_le_of_lt Nat.and_le_left (by omega)

theorem mask_two_pow (sz x : Nat) : mask (2 ^ sz) x = x % 2 ^ sz := by
  unfold mask
  rw [Nat.and_comm, Nat.and_pow_two_sub_one_eq_mod]

theorem and_wrap_cases (x : Nat) :
    x &&& DESC_WRAP = 0 ∨ x &&& DESC_WRAP = DESC_WRAP := by
  have h : DESC_WRAP = 2 ^ 6 := by norm_num [DESC_WRAP]
  rw [h, Nat.and_two_pow]
  cases x.testBit 6 <;> simp

theorem runState_nil (N : Nat) (s : RingState) : runState N s [] = s := rfl

theorem runState_cons (N : Nat) (s : RingState) (op : Op) (ops : List Op) :
    runState N s (op :: ops) = runState N (applyOp N s op) ops := rfl

theorem runState_append (N : Nat) (s : RingState) (l₁ l₂ : List Op) :
    runState N s (l₁ ++ l₂) = runState N (runState N s l₁) l₂ := by
  unfold runState
  exact List.foldl_append _ _ _ _

theorem use_buf_index (N : Nat) (s : RingState) (out : UseBufOut) (i : Nat) :
    ((use_buf N s out).1.ring i).index = (s.ring i).index := by
  by_cases h1 : (s.ring (mask N s.host.used_idx)).flags &&& DESC_HW = 0
  · simp [use_buf, h1]
  · by_cases h2 : (s.ring (mask N s.host.used_idx)).flags &&& DESC_WRAP
        = (if mask N s.host.used_idx = 0 then toggleWrap s.host.wrap else s.host.wrap)
    · simp [use_buf, h1, h2, Function.update_apply]
      split
      · rename_i heq; rw [heq]
      · rfl
    · simp [use_buf, h1, h2]

theorem add_inbuf_index (N len buf datap fl : Nat) (s : RingState) (i : Nat) :
    ((add_inbuf N len buf datap fl s).1.ring i).index = (s.ring i).index := by
  simp only [add_inbuf]
  split
  · rfl
  · simp only [Function.update_apply]
    split
    · rename_i heq; rw [heq]
    · rfl

theorem get_buf_ring (N : Nat) (s : RingState) (out : GetBufOut) :
    (get_buf N s out).1.ring = s.ring := by
  simp only [get_buf]
  split <;> rfl

/-- No operation ever modifies the stable slot identifier of a descriptor. -/
theorem index_preserved_op (N : Nat) (s : RingState) (op : Op)
    (h : ∀ i, i < N → (s.ring i).index = i % W16) :
    ∀ i, i < N → ((applyOp N s op).ring i).index = i % W16 := by
  intro i hi
  cases op with
  | publish len buf datap fl =>
    show ((add_inbuf N len buf datap fl s).1.ring i).index = i % W16
    rw [add_inbuf_index]
    exact h i hi
  | reclaim =>
    show ((get_buf N s ⟨0, 0, 0⟩).1.ring i).index = i % W16
    rw [get_buf_ring]
    exact h i hi
  | useBuf =>
    show ((use_buf N s ⟨0, 0, 0⟩).1.ring i).index = i % W16
    rw [use_buf_index]
    exact h i hi

theorem index_preserved_run (N : Nat) (ops : List Op) : ∀ (s : RingState),
    (∀ i, i < N → (s.ring i).index = i % W16) →
    ∀ i, i < N → ((runState N s ops).ring i).index = i % W16 := by
  induction ops with
  | nil => intro s h; exact h
  | cons op rest ih =>
    intro s h
    rw [runState_cons]
    exact ih _ (index_preserved_op N s op h)

end RingC

/-- C10: the stable slot identifier written at initialization is never
modified by any operation of either endpoint, so after any operation
sequence the descriptor at position `i` still carries identifier `i`, and
the shadow-table index computed by `get_buf` (`ring[head].index & (ring_size
- 1)`) is exactly the head slot being reclaimed. -/
theorem c10_index_stable (N sz : Nat) (ops : List RingC.Op) (i : Nat)
    (hN : N = 2 ^ sz) (hsz : sz ≤ 16) (hi : i < N) :
    ((RingC.runState N (RingC.alloc_ring N) ops).ring i).index = i
    ∧ ((RingC.runState N (RingC.alloc_ring N) ops).ring
          (RingC.mask N (RingC.runState N (RingC.alloc_ring N) ops).guest.last_used_idx)).index
        &&& (N - 1)
      = RingC.mask N (RingC.runState N (RingC.alloc_ring N) ops).guest.last_used_idx := by
  subst hN
  have hNW : (2 : Nat) ^ sz ≤ RingC.W16 := by
    have : (2 : Nat) ^ sz ≤ 2 ^ 16 := Nat.pow_le_pow_right (by norm_num) hsz
    simpa [RingC.W16] using this
  have hidx := RingC.index_preserved_run (2 ^ sz) ops (RingC.alloc_ring (2 ^ sz))
    (fun j _ => rfl)
  constructor
  · rw [hidx i hi, Nat.mod_eq_of_lt (lt_of_lt_of_le hi hNW)]
  · have hhead : RingC.mask (2 ^ sz)
        (RingC.runState (2 ^ sz) (RingC.alloc_ring (2 ^ sz)) ops).guest.last_used_idx
        < 2 ^ sz := RingC.mask_lt _ _ (Nat.two_pow_pos sz)
    rw [hidx _ hhead, Nat.mod_eq_of_lt (lt_of_lt_of_le hhead hNW),
      Nat.and_pow_two_sub_one_eq_mod, Nat.mod_eq_of_lt hhead]

/-- Witness for C10: capacity 4, a three-operation trace, slot 2. -/
theorem c10_index_stable_witness :
    ((RingC.runState 4 (RingC.alloc_ring 4)
        [.publish 5 100 11 0, .useBuf, .reclaim]).ring 2).index = 2
    ∧ ((RingC.runState 4 (RingC.alloc_ring 4)
          [.publish 5 100 11 0, .useBuf, .reclaim]).ring
          (RingC.mask 4 (RingC.runState 4 (RingC.alloc_ring 4)
              [.publish 5 100 11 0, .useBuf, .reclaim]).guest.last_used_idx)).index
        &&& (4 - 1)
      = RingC.mask 4 (RingC.runState 4 (RingC.alloc_ring 4)
          [.publish 5 100 11 0, .useBuf, .reclaim]).guest.last_used_idx :=
  c10_index_stable 4 2 [.publish 5 100 11 0, .useBuf, .reclaim] 2 rfl
    (by decide) (by decide)

/-- C8: initialization postcondition.  After a successful `alloc_ring`
every descriptor carries its own position as identifier and zero flags, the
shadow table is zeroed, the free count equals the capacity, both generation
bits hold the same initial value `0x40`, and any allocation failure
terminates with exit status 3. -/
theorem c8_alloc_init (N i : Nat) (rOk eOk dOk : Bool) (hi : i < N)
    (hNW : N ≤ RingC.W16) (hfail : rOk = false ∨ eOk = false ∨ dOk = false) :
    (RingC.alloc_ring N).ring i = { addr := 0, len := 0, index := i, flags := 0 }
    ∧ (RingC.alloc_ring N).data i = { buf := 0, data := 0 }
    ∧ (RingC.alloc_ring N).guest.num_free = N
    ∧ (RingC.alloc_ring N).guest.wrap = (RingC.alloc_ring N).host.wrap
    ∧ (RingC.alloc_ring N).guest.wrap = 0x40
    ∧ RingC.alloc_ring_checked N rOk eOk dOk = .error 3
    ∧ RingC.alloc_ring_checked N true true true = .ok (RingC.alloc_ring N) := by
  refine ⟨?_, rfl, rfl, rfl, rfl, ?_, rfl⟩
  · show RingC.initDesc i = _
    unfold RingC.initDesc
    rw [Nat.mod_eq_of_lt (lt_of_lt_of_le hi hNW)]
  · rcases hfail with h | h | h <;> rw [h] <;> cases rOk <;> cases eOk <;>
      cases dOk <;> rfl

/-- Witness for C8: capacity 4, slot 2, ring-buffer allocation failing. -/
theorem c8_alloc_init_witness :
    (RingC.alloc_ring 4).ring 2 = { addr := 0, len := 0, index := 2, flags := 0 }
    ∧ (RingC.alloc_ring 4).data 2 = { buf := 0, data := 0 }
    ∧ (RingC.alloc_ring 4).guest.num_free = 4
    ∧ (RingC.alloc_ring 4).guest.wrap = (RingC.alloc_ring 4).host.wrap
    ∧ (RingC.alloc_ring 4).guest.wrap = 0x40
    ∧ RingC.alloc_ring_checked 4 false true true = .error 3
    ∧ RingC.alloc_ring_checked 4 true true true = .ok (RingC.alloc_ring 4) :=
  c8_alloc_init 4 2 false true true (by decide) (by decide) (Or.inl rfl)

/-- Counterexample to C6 as stated: on a successful `use_buf` the length and
buffer-handle output cells keep their previous arbitrary contents (99 and
77) instead of receiving the slot length (5) and buffer handle (100) that
were published — only the flags cell is written. -/
theorem c6_use_buf_cex :
    (RingC.use_buf 1 c6State ⟨99, 77, 3⟩).2.2 = true
    ∧ (c6State.ring 0).len = 5
    ∧ c6State.data 0 = { buf := 100, data := 11 }
    ∧ (RingC.use_buf 1 c6State ⟨99, 77, 3⟩).2.1.lenp = 99
    ∧ (RingC.use_buf 1 c6State ⟨99, 77, 3⟩).2.1.bufp = 77
    ∧ (RingC.use_buf 1 c6State ⟨99, 77, 3⟩).2.1.flagsp = 0x80 := by
  refine ⟨by decide, by decide, by decide, by decide, by decide, by decide⟩

/-- C6 amended: on success `use_buf` writes only the pre-completion slot
flags to the flags output cell, leaves the length and buffer-handle cells
untouched, applies the placeholder completion effect (length decrement),
clears the ownership bit, sets the slot generation bit to the current
consumer lap, and advances the claim cursor by one. -/
theorem c6_use_buf_amended (N : Nat) (s : RingC.RingState) (out : RingC.UseBufOut)
    (hok : (RingC.use_buf N s out).2.2 = true) :
    (RingC.use_buf N s out).2.1.lenp = out.lenp
    ∧ (RingC.use_buf N s out).2.1.bufp = out.bufp
    ∧ (RingC.use_buf N s out).2.1.flagsp = (s.ring (RingC.mask N s.host.used_idx)).flags
    ∧ ((RingC.use_buf N s out).1.ring (RingC.mask N s.host.used_idx)).len
        = ((s.ring (RingC.mask N s.host.used_idx)).len + RingC.W32 - 1) % RingC.W32
    ∧ ((RingC.use_buf N s out).1.ring (RingC.mask N s.host.used_idx)).flags
        &&& RingC.DESC_HW = 0
    ∧ ((RingC.use_buf N s out).1.ring (RingC.mask N s.host.used_idx)).flags
        = (RingC.use_buf N s out).1.host.wrap
    ∧ (RingC.use_buf N s out).1.host.used_idx = (s.host.used_idx + 1) % RingC.W32 := by
  by_cases h1 : (s.ring (RingC.mask N s.host.used_idx)).flags &&& RingC.DESC_HW = 0
  · exfalso
    simp [RingC.use_buf, h1] at hok
  · by_cases h2 : (s.ring (RingC.mask N s.host.used_idx)).flags &&& RingC.DESC_WRAP
        = (if RingC.mask N s.host.used_idx = 0
           then RingC.toggleWrap s.host.wrap else s.host.wrap)
    · have hw : (if RingC.mask N s.host.used_idx = 0
          then RingC.toggleWrap s.host.wrap else s.host.wrap) = 0
          ∨ (if RingC.mask N s.host.used_idx = 0
             then RingC.toggleWrap s.host.wrap else s.host.wrap) = RingC.DESC_WRAP := by
        rw [← h2]
        exact RingC.and_wrap_cases _
      simp only [RingC.use_buf, h1, h2, if_false, ite_self, Function.update_apply,
        if_pos rfl, ne_eq, not_true_eq_false]
      rcases hw with hw | hw <;>
        simp [hw, Function.update_apply, RingC.DESC_WRAP, RingC.DESC_HW] <;>
        decide
    · exfalso
      simp [RingC.use_buf, h1, h2] at hok

/-- Witness for C6 at capacity 1, the published slot, out-cells (99,77,3). -/
theorem c6_use_buf_amended_witness :
    (RingC.use_buf 1 c6State ⟨99, 77, 3⟩).2.1.lenp = 99
    ∧ (RingC.use_buf 1 c6State ⟨99, 77, 3⟩).2.1.bufp = 77
    ∧ (RingC.use_buf 1 c6State ⟨99, 77, 3⟩).2.1.flagsp
        = (c6State.ring (RingC.mask 1 c6State.host.used_idx)).flags
    ∧ ((RingC.use_buf 1 c6State ⟨99, 77, 3⟩).1.ring
          (RingC.mask 1 c6State.host.used_idx)).len
        = ((c6State.ring (RingC.mask 1 c6State.host.used_idx)).len
            + RingC.W32 - 1) % RingC.W32
    ∧ ((RingC.use_buf 1 c6State ⟨99, 77, 3⟩).1.ring
          (RingC.mask 1 c6State.host.used_idx)).flags &&& RingC.DESC_HW = 0
    ∧ ((RingC.use_buf 1 c6State ⟨99, 77, 3⟩).1.ring
          (RingC.mask 1 c6State.host.used_idx)).flags
        = (RingC.use_buf 1 c6State ⟨99, 77, 3⟩).1.host.wrap
    ∧ (RingC.use_buf 1 c6State ⟨99, 77, 3⟩).1.host.used_idx
        = (c6State.host.used_idx + 1) % RingC.W32 :=
  c6_use_buf_amended 1 c6State ⟨99, 77, 3⟩ (by decide)

/-- Counterexample to C7 as stated: on the freshly allocated capacity-1 ring
`use_buf` returns Empty, yet the consumer generation bit has been toggled
from 0x40 to 0 by the call, so the endpoint-owned state is not left exactly
as it was. -/
theorem c7_failure_atomicity_cex :
    (RingC.use_buf 1 (RingC.alloc_ring 1) ⟨0, 0, 0⟩).2.2 = false
    ∧ (RingC.alloc_ring 1).host.wrap = 0x40
    ∧ (RingC.use_buf 1 (RingC.alloc_ring 1) ⟨0, 0, 0⟩).1.host.wrap = 0 := by
  refine ⟨by decide, by decide, by decide⟩

/-- C7 amended: the RingFull path of `add_inbuf` and the None path of
`get_buf` leave the state (and out-cells) exactly as before; the Empty path
of `use_buf` preserves the ring contents, shadow table, guest state, claim
cursor, out-cells and notification state, and preserves the consumer
generation bit too except when the claim cursor sits at ring position 0,
where the bit is toggled even though the call fails. -/
theorem c7_failure_atomicity (N len buf datap fl : Nat) (s : RingC.RingState)
    (out : RingC.UseBufOut) (gout : RingC.GetBufOut) :
    (s.guest.num_free = 0 → RingC.add_inbuf N len buf datap fl s = (s, false))
    ∧ ((s.ring (RingC.mask N s.guest.last_used_idx)).flags &&& RingC.DESC_HW ≠ 0 →
        RingC.get_buf N s gout = (s, gout, none))
    ∧ ((RingC.use_buf N s out).2.2 = false →
        (RingC.use_buf N s out).1.ring = s.ring
        ∧ (RingC.use_buf N s out).1.data = s.data
        ∧ (RingC.use_buf N s out).1.guest = s.guest
        ∧ (RingC.use_buf N s out).1.host.used_idx = s.host.used_idx
        ∧ (RingC.use_buf N s out).1.host.called_used_idx = s.host.called_used_idx
        ∧ (RingC.use_buf N s out).1.event = s.event
        ∧ (RingC.use_buf N s out).2.1 = out
        ∧ (RingC.mask N s.host.used_idx ≠ 0 → (RingC.use_buf N s out).1 = s)) := by
  refine ⟨?_, ?_, ?_⟩
  · intro h
    simp [RingC.add_inbuf, h]
  · intro h
    simp [RingC.get_buf, h]
  · intro h
    by_cases h1 : (s.ring (RingC.mask N s.host.used_idx)).flags &&& RingC.DESC_HW = 0
    · have hr : RingC.use_buf N s out =
          ({ s with host := { s.host with
              wrap := if RingC.mask N s.host.used_idx = 0
                      then RingC.toggleWrap s.host.wrap else s.host.wrap } },
            out, false) := by
        simp [RingC.use_buf, h1]
      rw [hr]
      refine ⟨rfl, rfl, rfl, rfl, rfl, rfl, rfl, fun hm => ?_⟩
      simp [if_neg hm]
    · by_cases h2 : (s.ring (RingC.mask N s.host.used_idx)).flags &&& RingC.DESC_WRAP
          = (if RingC.mask N s.host.used_idx = 0
             then RingC.toggleWrap s.host.wrap else s.host.wrap)
      · exfalso
        simp [RingC.use_buf, h1, h2] at h
      · have hr : RingC.use_buf N s out =
            ({ s with host := { s.host with
                wrap := if RingC.mask N s.host.used_idx = 0
                        then RingC.toggleWrap s.host.wrap else s.host.wrap } },
              out, false) := by
          simp [RingC.use_buf, h1, h2]
        rw [hr]
        refine ⟨rfl, rfl, rfl, rfl, rfl, rfl, rfl, fun hm => ?_⟩
        simp [if_neg hm]

/-- Witness for C7: the concrete capacity-2 state on which all three
failure paths fire, with nonzero claim-cursor position. -/
theorem c7_failure_atomicity_witness :
    RingC.add_inbuf 2 5 9 9 0 c7AllState = (c7AllState, false)
    ∧ RingC.get_buf 2 c7AllState ⟨1, 2, 3⟩ = (c7AllState, ⟨1, 2, 3⟩, none)
    ∧ ((RingC.use_buf 2 c7AllState ⟨4, 5, 6⟩).1.ring = c7AllState.ring
        ∧ (RingC.use_buf 2 c7AllState ⟨4, 5, 6⟩).1.data = c7AllState.data
        ∧ (RingC.use_buf 2 c7AllState ⟨4, 5, 6⟩).1.guest = c7AllState.guest
        ∧ (RingC.use_buf 2 c7AllState ⟨4, 5, 6⟩).1.host.used_idx
            = c7AllState.host.used_idx
        ∧ (RingC.use_buf 2 c7AllState ⟨4, 5, 6⟩).1.host.called_used_idx
            = c7AllState.host.called_used_idx
        ∧ (RingC.use_buf 2 c7AllState ⟨4, 5, 6⟩).1.event = c7AllState.event
        ∧ (RingC.use_buf 2 c7AllState ⟨4, 5, 6⟩).2.1 = (⟨4, 5, 6⟩ : RingC.UseBufOut)
        ∧ (RingC.mask 2 c7AllState.host.used_idx ≠ 0 →
            (RingC.use_buf 2 c7AllState ⟨4, 5, 6⟩).1 = c7AllState)) := by
  have h := c7_failure_atomicity 2 5 9 9 0 c7AllState ⟨4, 5, 6⟩ ⟨1, 2, 3⟩
  exact ⟨h.1 (by decide), h.2.1 (by decide), h.2.2 (by decide)⟩

namespace RingC

/-! ### Arithmetic of generation bits and the entry window -/

theorem wgN_mem (N m : Nat) : wgN N m = 0 ∨ wgN N m = DESC_WRAP := by
  unfold wgN
  split
  · exact Or.inl rfl
  · exact Or.inr rfl

theorem gw_mem (N a : Nat) : gw N a = 0 ∨ gw N a = DESC_WRAP := by
  unfold gw
  split
  · exact Or.inr rfl
  · exact wgN_mem N (a - 1)

theorem gw_eq_wgN (N a : Nat) (h : a % N ≠ 0) : gw N a = wgN N a := by
  have ha : a ≠ 0 := by
    intro h0
    exact h (by simp [h0])
  obtain ⟨b, rfl⟩ : ∃ b, a = b + 1 := ⟨a - 1, by omega⟩
  have hnd : ¬ N ∣ (b + 1) := by
    intro hd
    obtain ⟨c, hc⟩ := hd
    rw [hc] at h
    exact h (Nat.mul_mod_right N c)
  unfold gw wgN
  rw [if_neg ha, Nat.add_sub_cancel, Nat.succ_div, if_neg hnd]
  simp

theorem gw_toggle (N a : Nat) (hpos : 0 < N) (h : a % N = 0) :
    toggleWrap (gw N a) = wgN N a := by
  rcases Nat.eq_zero_or_pos a with rfl | hapos
  · simp [gw, toggleWrap, wgN, Nat.zero_div, DESC_WRAP]
  · obtain ⟨b, rfl⟩ : ∃ b, a = b + 1 := ⟨a - 1, by omega⟩
    have hd : N ∣ (b + 1) := Nat.dvd_of_mod_eq_zero h
    unfold gw wgN
    rw [if_neg (by omega), Nat.add_sub_cancel, Nat.succ_div, if_pos hd]
    by_cases hq : (b / N) % 2 = 0
    · rw [if_pos hq, if_neg (by omega)]
      decide
    · rw [if_neg hq, if_pos (by omega)]
      decide

theorem hw_flag_and_HW (w : Nat) (hw : w = 0 ∨ w = DESC_WRAP) :
    (DESC_HW ||| w) &&& DESC_HW = DESC_HW := by
  rcases hw with rfl | rfl <;> decide

theorem hw_flag_and_WRAP (w : Nat) (hw : w = 0 ∨ w = DESC_WRAP) :
    (DESC_HW ||| w) &&& DESC_WRAP = w := by
  rcases hw with rfl | rfl <;> decide

theorem wg_flag_and_HW (w : Nat) (hw : w = 0 ∨ w = DESC_WRAP) :
    w &&& DESC_HW = 0 := by
  rcases hw with rfl | rfl <;> decide

theorem toggle_mem (w : Nat) (hw : w = 0 ∨ w = DESC_WRAP) :
    toggleWrap w = 0 ∨ toggleWrap w = DESC_WRAP := by
  rcases hw with rfl | rfl
  · exact Or.inr (by decide)
  · exact Or.inl (by decide)

/-- The window `[a - N, a)` contains at most one entry in each residue
class mod `N`. -/
theorem window_unique (N a m m' : Nat) (hm : m < a) (hm2 : a ≤ m + N)
    (hm' : m' < a) (hm2' : a ≤ m' + N) (hmod : m % N = m' % N) : m = m' := by
  rcases Nat.le_total m m' with h | h
  · have hdvd : N ∣ m' - m := (Nat.modEq_iff_dvd' h).mp hmod
    rcases Nat.eq_zero_or_pos (m' - m) with h0 | hp
    · omega
    · have := Nat.le_of_dvd hp hdvd
      omega
  · have hdvd : N ∣ m - m' := (Nat.modEq_iff_dvd' h).mp hmod.symm
    rcases Nat.eq_zero_or_pos (m - m') with h0 | hp
    · omega
    · have := Nat.le_of_dvd hp hdvd
      omega

theorem head_eq (sz : Nat) (c : Nat) (hsz : sz ≤ 16) :
    mask (2 ^ sz) (c % W32) = c % 2 ^ sz := by
  rw [mask_two_pow]
  have hdvd : (2 : Nat) ^ sz ∣ 2 ^ 32 := pow_dvd_pow 2 (by omega)
  have hW : W32 = 2 ^ 32 := by norm_num [W32]
  rw [hW]
  exact Nat.mod_mod_of_dvd c hdvd

theorem getD_append_lt (xs ys : List Nat) (m : Nat) (h : m < xs.length) :
    (xs ++ ys).getD m 0 = xs.getD m 0 := by
  rw [List.getD_eq_getElem?_getD, List.getD_eq_getElem?_getD,
    List.getElem?_append_left h]

theorem getD_concat_self (xs : List Nat) (y : Nat) :
    (xs ++ [y]).getD xs.length 0 = y := by
  rw [List.getD_eq_getElem?_getD, List.getElem?_concat_length]
  rfl

theorem take_drop_cons (xs : List Nat) (n m : Nat) (hmn : m < n)
    (hml : m < xs.length) :
    (xs.take n).drop m = xs.getD m 0 :: (xs.take n).drop (m + 1) := by
  have hlt : m < (xs.take n).length := by
    rw [List.length_take]
    omega
  rw [List.drop_eq_getElem_cons hlt]
  congr 1
  have h1 : (xs.take n)[m] = xs[m] := by
    have := List.getElem?_take_of_lt (l := xs) hmn
    rw [List.getElem?_eq_getElem hlt, List.getElem?_eq_getElem hml] at this
    exact Option.some_injective _ this
  rw [h1, List.getD_eq_getElem?_getD, List.getElem?_eq_getElem hml]
  rfl

theorem slotSpec_append (u l : Nat) (tags : List Nat) (m N : Nat) (d : Desc)
    (de : DataEntry) (hm : m < tags.length)
    (h : slotSpec u l tags m N d de) (y : Nat) :
    slotSpec u l (tags ++ [y]) m N d de := by
  unfold slotSpec at h ⊢
  rw [getD_append_lt _ _ _ hm]
  exact h

theorem slotSpec_complete_other (u l : Nat) (tags : List Nat) (m N : Nat)
    (d : Desc) (de : DataEntry) (h : slotSpec u l tags m N d de)
    (hne : m ≠ u) : slotSpec (u + 1) l tags m N d de := by
  unfold slotSpec at h ⊢
  by_cases hum : u ≤ m
  · rw [if_pos hum] at h
    rw [if_pos (by omega)]
    exact h
  · rw [if_neg hum] at h
    rw [if_neg (by omega)]
    exact h

theorem slotSpec_reclaim_other (u l : Nat) (tags : List Nat) (m N : Nat)
    (d : Desc) (de : DataEntry) (h : slotSpec u l tags m N d de)
    (hne : m ≠ l) : slotSpec u (l + 1) tags m N d de := by
  unfold slotSpec at h ⊢
  by_cases hum : u ≤ m
  · rw [if_pos hum] at h
    rw [if_pos hum]
    exact h
  · rw [if_neg hum] at h
    rw [if_neg hum]
    obtain ⟨h1, h2⟩ := h
    refine ⟨h1, ?_⟩
    by_cases hml : m < l
    · rw [if_pos hml] at h2
      rw [if_pos (by omega)]
      exact h2
    · rw [if_neg hml] at h2
      rw [if_neg (by omega)]
      exact h2

end RingC

namespace RingC

/-! ### Explicit result shapes of the three operations -/

theorem add_inbuf_ok_eq (N len buf datap fl : Nat) (s : RingState)
    (h : s.guest.num_free ≠ 0) :
    add_inbuf N len buf datap fl s =
      ({ s with
          ring := Function.update s.ring (mask N s.guest.avail_idx)
            { addr := buf, len := len % W32,
              index := (s.ring (mask N s.guest.avail_idx)).index,
              flags := DESC_HW |||
                (if mask N s.guest.avail_idx = 0 then toggleWrap s.guest.wrap
                 else s.guest.wrap) }
          data := Function.update s.data (s.ring (mask N s.guest.avail_idx)).index
            { buf := buf, data := datap }
          guest := { s.guest with
                      num_free := s.guest.num_free - 1
                      avail_idx := (s.guest.avail_idx + 1) % W32
                      wrap := if mask N s.guest.avail_idx = 0
                              then toggleWrap s.guest.wrap else s.guest.wrap } },
       true) := by
  simp [add_inbuf, h]

theorem get_buf_ok_eq (N : Nat) (s : RingState) (out : GetBufOut)
    (h : (s.ring (mask N s.guest.last_used_idx)).flags &&& DESC_HW = 0) :
    get_buf N s out =
      ({ s with
          data := Function.update s.data
            ((s.ring (mask N s.guest.last_used_idx)).index &&& (N - 1))
            { buf := 0, data := 0 }
          guest := { s.guest with
                      num_free := (s.guest.num_free + 1) % W32
                      last_used_idx := (s.guest.last_used_idx + 1) % W32 } },
       { lenp := (s.ring (mask N s.guest.last_used_idx)).len,
         bufp := (s.data ((s.ring (mask N s.guest.last_used_idx)).index &&& (N - 1))).buf,
         flagsp := (s.ring (mask N s.guest.last_used_idx)).flags },
       some (s.data ((s.ring (mask N s.guest.last_used_idx)).index &&& (N - 1))).data) := by
  simp [get_buf, h]

theorem use_buf_fail_hw_eq (N : Nat) (s : RingState) (out : UseBufOut)
    (h : (s.ring (mask N s.host.used_idx)).flags &&& DESC_HW = 0) :
    use_buf N s out =
      ({ s with host := { s.host with
          wrap := if mask N s.host.used_idx = 0
                  then toggleWrap s.host.wrap else s.host.wrap } },
       out, false) := by
  simp [use_buf, h]

theorem use_buf_fail_wrap_eq (N : Nat) (s : RingState) (out : UseBufOut)
    (h1 : ¬ (s.ring (mask N s.host.used_idx)).flags &&& DESC_HW = 0)
    (h2 : (s.ring (mask N s.host.used_idx)).flags &&& DESC_WRAP
        ≠ (if mask N s.host.used_idx = 0
           then toggleWrap s.host.wrap else s.host.wrap)) :
    use_buf N s out =
      ({ s with host := { s.host with
          wrap := if mask N s.host.used_idx = 0
                  then toggleWrap s.host.wrap else s.host.wrap } },
       out, false) := by
  simp [use_buf, h1, h2]

theorem use_buf_ok_eq (N : Nat) (s : RingState) (out : UseBufOut)
    (h1 : ¬ (s.ring (mask N s.host.used_idx)).flags &&& DESC_HW = 0)
    (h2 : (s.ring (mask N s.host.used_idx)).flags &&& DESC_WRAP
        = (if mask N s.host.used_idx = 0
           then toggleWrap s.host.wrap else s.host.wrap)) :
    use_buf N s out =
      ({ s with
          ring := Function.update s.ring (mask N s.host.used_idx)
            { addr := (s.ring (mask N s.host.used_idx)).addr,
              len := ((s.ring (mask N s.host.used_idx)).len + W32 - 1) % W32,
              index := (s.ring (mask N s.host.used_idx)).index,
              flags := if (if mask N s.host.used_idx = 0
                           then toggleWrap s.host.wrap else s.host.wrap) ≠ 0
                       then DESC_WRAP else 0 }
          host := { s.host with
                     wrap := if mask N s.host.used_idx = 0
                             then toggleWrap s.host.wrap else s.host.wrap
                     used_idx := (s.host.used_idx + 1) % W32 } },
       { out with flagsp := (s.ring (mask N s.host.used_idx)).flags },
       true) := by
  simp [use_buf, h1, h2]

end RingC

namespace RingC

/-- A successful `add_inbuf` publishes entry `g.a`: it fills the head slot
with `DESC_HW` plus the lap bit, stores the tag in the shadow table, and
extends the ghost state by one published entry. -/
theorem inv_publish_ok (N sz : Nat) (hN : N = 2 ^ sz) (hsz : sz ≤ 16)
    (s : RingState) (g : Ghost) (inv : Inv N s g) (len buf datap fl : Nat)
    (h : s.guest.num_free ≠ 0) :
    (add_inbuf N len buf datap fl s).2 = true
    ∧ Inv N (add_inbuf N len buf datap fl s).1
        ⟨g.a + 1, g.u, g.l, g.tags ++ [datap]⟩ := by
  have hpos : 0 < N := by rw [hN]; exact Nat.two_pow_pos sz
  have hNW : N ≤ W16 := by
    rw [hN]
    have h2 : (2 : Nat) ^ sz ≤ 2 ^ 16 := Nat.pow_le_pow_right (by omega) hsz
    simpa [W16] using h2
  have hlu := inv.hlu
  have hua := inv.hua
  have hal := inv.hal
  have hfree : g.a - g.l < N := by
    have hf := inv.hfree
    rw [hf] at h
    omega
  have hhead : mask N s.guest.avail_idx = g.a % N := by
    rw [inv.havail, hN]
    exact head_eq sz g.a hsz
  have hheadlt : g.a % N < N := Nat.mod_lt _ hpos
  have hidxhead : (s.ring (g.a % N)).index = g.a % N := by
    rw [inv.hidx _ hheadlt, Nat.mod_eq_of_lt (lt_of_lt_of_le hheadlt hNW)]
  have hwrap2 : (if g.a % N = 0 then toggleWrap s.guest.wrap else s.guest.wrap)
      = wgN N g.a := by
    rw [inv.hgw]
    by_cases hz : g.a % N = 0
    · rw [if_pos hz]
      exact gw_toggle N g.a hpos hz
    · rw [if_neg hz]
      exact gw_eq_wgN N g.a hz
  have hmain : Inv N
      ({ s with
          ring := Function.update s.ring (mask N s.guest.avail_idx)
            { addr := buf, len := len % W32,
              index := (s.ring (mask N s.guest.avail_idx)).index,
              flags := DESC_HW |||
                (if mask N s.guest.avail_idx = 0 then toggleWrap s.guest.wrap
                 else s.guest.wrap) }
          data := Function.update s.data (s.ring (mask N s.guest.avail_idx)).index
            { buf := buf, data := datap }
          guest := { s.guest with
                      num_free := s.guest.num_free - 1
                      avail_idx := (s.guest.avail_idx + 1) % W32
                      wrap := if mask N s.guest.avail_idx = 0
                              then toggleWrap s.guest.wrap else s.guest.wrap } })
      ⟨g.a + 1, g.u, g.l, g.tags ++ [datap]⟩ := by
    rw [hhead, hidxhead, hwrap2]
    refine ⟨inv.hlu, Nat.le_succ_of_le inv.hua,
      (show g.a + 1 ≤ g.l + N by omega),
      (show (g.tags ++ [datap]).length = g.a + 1 by simp [inv.hlen]),
      ?_, inv.hlast, inv.hused, ?_, ?_, inv.hhw01, inv.hhw, ?_, ?_⟩
    · show (s.guest.avail_idx + 1) % W32 = (g.a + 1) % W32
      rw [inv.havail, Nat.mod_add_mod]
    · show s.guest.num_free - 1 = N - (g.a + 1 - g.l)
      rw [inv.hfree]
      omega
    · show wgN N g.a = gw N (g.a + 1)
      simp [gw]
    · intro i hi
      show (Function.update s.ring (g.a % N)
        { addr := buf, len := len % W32, index := g.a % N,
          flags := DESC_HW ||| wgN N g.a } i).index = i % W16
      rw [Function.update_apply]
      split
      · rename_i heq
        show g.a % N = i % W16
        rw [heq, Nat.mod_eq_of_lt (lt_of_lt_of_le hheadlt hNW)]
      · exact inv.hidx i hi
    · intro i hi
      show descInv N (g.a + 1) g.u g.l (g.tags ++ [datap])
        (Function.update s.ring (g.a % N)
          { addr := buf, len := len % W32, index := g.a % N,
            flags := DESC_HW ||| wgN N g.a } i)
        (Function.update s.data (g.a % N) { buf := buf, data := datap } i) i
      rw [Function.update_apply, Function.update_apply]
      by_cases hieq : i = g.a % N
      · rw [if_pos hieq, if_pos hieq]
        constructor
        · intro hax
          exfalso
          have := Nat.mod_le g.a N
          omega
        · intro _
          refine ⟨g.a, Nat.lt_succ_self _, by omega, hieq.symm, ?_⟩
          unfold slotSpec
          rw [if_pos inv.hua]
          refine ⟨rfl, ?_⟩
          show datap = (g.tags ++ [datap]).getD g.a 0
          rw [← inv.hlen, getD_concat_self]
      · rw [if_neg hieq, if_neg hieq]
        obtain ⟨hnever, hsome⟩ := inv.hslots i hi
        constructor
        · intro hax
          exact hnever (by omega)
        · intro hilt
          have hia : i < g.a := by
            rcases Nat.lt_or_ge i g.a with hlt | hge
            · exact hlt
            · exfalso
              have hieq' : i = g.a := by omega
              subst hieq'
              exact hieq (Nat.mod_eq_of_lt hi).symm
          obtain ⟨m, hm, hm2, hmmod, hspec⟩ := hsome hia
          refine ⟨m, by omega, ?_, hmmod, ?_⟩
          · rcases Nat.lt_or_ge g.a (m + N) with hlt | hge
            · omega
            · exfalso
              have ham : g.a = m + N := by omega
              have hmodeq : g.a % N = m % N := by
                rw [ham, Nat.add_mod_right]
              apply hieq
              rw [hmodeq]
              exact hmmod.symm
          · exact slotSpec_append g.u g.l g.tags m N _ _
              (by rw [inv.hlen]; omega) hspec datap
  constructor
  · rw [add_inbuf_ok_eq N len buf datap fl s h]
  · rw [add_inbuf_ok_eq N len buf datap fl s h]
    exact hmain

end RingC

namespace RingC

/-- `use_buf` either fails (leaving the ghost state unchanged — only the
host wrap bit may toggle at slot 0) or completes exactly entry `g.u`. -/
theorem inv_use (N sz : Nat) (hN : N = 2 ^ sz) (hsz : sz ≤ 16)
    (s : RingState) (g : Ghost) (inv : Inv N s g) (out : UseBufOut) :
    ((use_buf N s out).2.2 = false ∧ Inv N (use_buf N s out).1 g)
    ∨ ((use_buf N s out).2.2 = true
        ∧ Inv N (use_buf N s out).1 ⟨g.a, g.u + 1, g.l, g.tags⟩) := by
  have hpos : 0 < N := by rw [hN]; exact Nat.two_pow_pos sz
  have hNW : N ≤ W16 := by
    rw [hN]
    have h2 : (2 : Nat) ^ sz ≤ 2 ^ 16 := Nat.pow_le_pow_right (by omega) hsz
    simpa [W16] using h2
  have hhead : mask N s.host.used_idx = g.u % N := by
    rw [inv.hused, hN]
    exact head_eq sz g.u hsz
  have hheadlt : g.u % N < N := Nat.mod_lt _ hpos
  have hidxheadu : (s.ring (g.u % N)).index = g.u % N := by
    rw [inv.hidx _ hheadlt, Nat.mod_eq_of_lt (lt_of_lt_of_le hheadlt hNW)]
  have hfailInv : Inv N
      ({ s with host := { s.host with
          wrap := if mask N s.host.used_idx = 0
                  then toggleWrap s.host.wrap else s.host.wrap } }) g := by
    refine ⟨inv.hlu, inv.hua, inv.hal, inv.hlen, inv.havail, inv.hlast,
      inv.hused, inv.hfree, inv.hgw, ?_, ?_, inv.hidx, inv.hslots⟩
    · show (if mask N s.host.used_idx = 0
          then toggleWrap s.host.wrap else s.host.wrap) = 0
        ∨ (if mask N s.host.used_idx = 0
          then toggleWrap s.host.wrap else s.host.wrap) = DESC_WRAP
      by_cases hz : mask N s.host.used_idx = 0
      · rw [if_pos hz]
        exact toggle_mem _ inv.hhw01
      · rw [if_neg hz]
        exact inv.hhw01
    · intro hz
      show (if mask N s.host.used_idx = 0
          then toggleWrap s.host.wrap else s.host.wrap) = gw N g.u
      rw [hhead, if_neg hz]
      exact inv.hhw hz
  rcases Nat.lt_or_ge g.u g.a with hua' | hua'
  · obtain ⟨hnever, hsome⟩ := inv.hslots (g.u % N) hheadlt
    obtain ⟨m, hm, hm2, hmmod, hspec⟩ :=
      hsome (lt_of_le_of_lt (Nat.mod_le g.u N) hua')
    have hmu : m = g.u := window_unique N g.a m g.u hm hm2 hua'
      (show g.a ≤ g.u + N by have := inv.hal; have := inv.hlu; omega) hmmod
    subst hmu
    unfold slotSpec at hspec
    rw [if_pos (le_refl g.u)] at hspec
    obtain ⟨hflags, hdata⟩ := hspec
    have hw := wgN_mem N g.u
    have hHW : (s.ring (g.u % N)).flags &&& DESC_HW ≠ 0 := by
      rw [hflags, hw_flag_and_HW _ hw]
      decide
    have hWRAP : (s.ring (g.u % N)).flags &&& DESC_WRAP = wgN N g.u := by
      rw [hflags]
      exact hw_flag_and_WRAP _ hw
    by_cases hmatch : wgN N g.u
        = (if g.u % N = 0 then toggleWrap s.host.wrap else s.host.wrap)
    · right
      have h1 : ¬ (s.ring (mask N s.host.used_idx)).flags &&& DESC_HW = 0 := by
        rw [hhead]
        exact hHW
      have h2 : (s.ring (mask N s.host.used_idx)).flags &&& DESC_WRAP
          = (if mask N s.host.used_idx = 0
             then toggleWrap s.host.wrap else s.host.wrap) := by
        rw [hhead, hWRAP]
        exact hmatch
      have hflagval : (if wgN N g.u ≠ 0 then DESC_WRAP else 0) = wgN N g.u := by
        rcases hw with hv | hv <;> rw [hv] <;> simp [DESC_WRAP]
      rw [use_buf_ok_eq N s out h1 h2]
      refine ⟨rfl, ?_⟩
      rw [hhead, ← hmatch, hflagval, hidxheadu]
      refine ⟨Nat.le_succ_of_le inv.hlu, hua', inv.hal, inv.hlen, inv.havail,
        inv.hlast, ?_, inv.hfree, inv.hgw, ?_, ?_, ?_, ?_⟩
      · show (s.host.used_idx + 1) % W32 = (g.u + 1) % W32
        rw [inv.hused, Nat.mod_add_mod]
      · show wgN N g.u = 0 ∨ wgN N g.u = DESC_WRAP
        exact hw
      · intro _
        show wgN N g.u = gw N (g.u + 1)
        simp [gw]
      · intro i hi
        show (Function.update s.ring (g.u % N)
          { addr := (s.ring (g.u % N)).addr,
            len := ((s.ring (g.u % N)).len + W32 - 1) % W32,
            index := g.u % N, flags := wgN N g.u } i).index = i % W16
        rw [Function.update_apply]
        split
        · rename_i heq
          show g.u % N = i % W16
          rw [heq, Nat.mod_eq_of_lt (lt_of_lt_of_le hheadlt hNW)]
        · exact inv.hidx i hi
      · intro i hi
        show descInv N g.a (g.u + 1) g.l g.tags
          (Function.update s.ring (g.u % N)
            { addr := (s.ring (g.u % N)).addr,
              len := ((s.ring (g.u % N)).len + W32 - 1) % W32,
              index := g.u % N, flags := wgN N g.u } i)
          (s.data i) i
        rw [Function.update_apply]
        by_cases hieq : i = g.u % N
        · rw [if_pos hieq]
          constructor
          · intro hax
            exfalso
            have := Nat.mod_le g.u N
            omega
          · intro _
            refine ⟨g.u, hua', ?_, hieq.symm, ?_⟩
            · have := inv.hal
              have := inv.hlu
              omega
            · unfold slotSpec
              rw [if_neg (by omega)]
              refine ⟨rfl, ?_⟩
              rw [if_neg (by have := inv.hlu; omega), hieq]
              exact hdata
        · rw [if_neg hieq]
          obtain ⟨hnever', hsome'⟩ := inv.hslots i hi
          refine ⟨hnever', ?_⟩
          intro hilt
          obtain ⟨mo, hm', hm2', hmmod', hspec'⟩ := hsome' hilt
          refine ⟨mo, hm', hm2', hmmod', ?_⟩
          refine slotSpec_complete_other g.u g.l g.tags mo N _ _ hspec' ?_
          intro hmm
          subst hmm
          exact hieq hmmod'.symm
    · left
      have h1 : ¬ (s.ring (mask N s.host.used_idx)).flags &&& DESC_HW = 0 := by
        rw [hhead]
        exact hHW
      have h2 : (s.ring (mask N s.host.used_idx)).flags &&& DESC_WRAP
          ≠ (if mask N s.host.used_idx = 0
             then toggleWrap s.host.wrap else s.host.wrap) := by
        rw [hhead, hWRAP]
        exact hmatch
      rw [use_buf_fail_wrap_eq N s out h1 h2]
      exact ⟨rfl, hfailInv⟩
  · left
    have h1 : (s.ring (mask N s.host.used_idx)).flags &&& DESC_HW = 0 := by
      rw [hhead]
      obtain ⟨hnever, hsome⟩ := inv.hslots (g.u % N) hheadlt
      rcases Nat.lt_or_ge (g.u % N) g.a with hlt | hge
      · obtain ⟨m, hm, hm2, hmmod, hspec⟩ := hsome hlt
        unfold slotSpec at hspec
        rw [if_neg (by omega)] at hspec
        rw [hspec.1]
        exact wg_flag_and_HW _ (wgN_mem N m)
      · rw [(hnever hge).1]
        decide
    rw [use_buf_fail_hw_eq N s out h1]
    exact ⟨rfl, hfailInv⟩

end RingC

namespace RingC

/-- For traces that never reclaim from an empty ring, `get_buf` fails (with
no state change at all) exactly while the oldest published entry is still
device-owned, and otherwise reclaims exactly entry `g.l`, returning its
published tag. -/
theorem inv_reclaim (N sz : Nat) (hN : N = 2 ^ sz) (hsz : sz ≤ 16)
    (s : RingState) (g : Ghost) (inv : Inv N s g) (out : GetBufOut)
    (hsafe : s.guest.last_used_idx ≠ s.guest.avail_idx) :
    ((get_buf N s out).2.2 = none ∧ (get_buf N s out).1 = s)
    ∨ ((get_buf N s out).2.2 = some (g.tags.getD g.l 0)
        ∧ Inv N (get_buf N s out).1 ⟨g.a, g.u, g.l + 1, g.tags⟩) := by
  have hpos : 0 < N := by rw [hN]; exact Nat.two_pow_pos sz
  have hNW : N ≤ W16 := by
    rw [hN]
    have h2 : (2 : Nat) ^ sz ≤ 2 ^ 16 := Nat.pow_le_pow_right (by omega) hsz
    simpa [W16] using h2
  have hNW' : N ≤ 65536 := hNW
  have hhead : mask N s.guest.last_used_idx = g.l % N := by
    rw [inv.hlast, hN]
    exact head_eq sz g.l hsz
  have hheadlt : g.l % N < N := Nat.mod_lt _ hpos
  have hidxheadl : (s.ring (g.l % N)).index = g.l % N := by
    rw [inv.hidx _ hheadlt, Nat.mod_eq_of_lt (lt_of_lt_of_le hheadlt hNW)]
  have hla : g.l < g.a := by
    have h1 := inv.hlu
    have h2 := inv.hua
    rcases Nat.lt_or_ge g.l g.a with h | h
    · exact h
    · exfalso
      have hle : g.l = g.a := by omega
      apply hsafe
      rw [inv.hlast, inv.havail, hle]
  obtain ⟨m, hm, hm2, hmmod, hspec⟩ :=
    (inv.hslots (g.l % N) hheadlt).2 (lt_of_le_of_lt (Nat.mod_le g.l N) hla)
  have hml : m = g.l := window_unique N g.a m g.l hm hm2 hla inv.hal hmmod
  subst hml
  rcases Nat.lt_or_ge g.l g.u with hlu' | hlu'
  · right
    unfold slotSpec at hspec
    rw [if_neg (by omega)] at hspec
    obtain ⟨hflags, hdata⟩ := hspec
    rw [if_neg (lt_irrefl g.l)] at hdata
    have h0 : (s.ring (mask N s.guest.last_used_idx)).flags &&& DESC_HW = 0 := by
      rw [hhead, hflags]
      exact wg_flag_and_HW _ (wgN_mem N g.l)
    have hidxc : (s.ring (mask N s.guest.last_used_idx)).index &&& (N - 1)
        = g.l % N := by
      rw [hhead, hidxheadl, hN, Nat.and_pow_two_sub_one_eq_mod,
        Nat.mod_mod_of_dvd _ (dvd_refl _)]
    rw [get_buf_ok_eq N s out h0]
    constructor
    · show some (s.data ((s.ring (mask N s.guest.last_used_idx)).index
          &&& (N - 1))).data = some (g.tags.getD g.l 0)
      rw [hidxc, hdata]
    · rw [hidxc]
      refine ⟨hlu', inv.hua, (show g.a ≤ g.l + 1 + N by have := inv.hal; omega),
        inv.hlen, inv.havail, ?_, inv.hused, ?_, inv.hgw, inv.hhw01, inv.hhw,
        inv.hidx, ?_⟩
      · show (s.guest.last_used_idx + 1) % W32 = (g.l + 1) % W32
        rw [inv.hlast, Nat.mod_add_mod]
      · show (s.guest.num_free + 1) % W32 = N - (g.a - (g.l + 1))
        rw [inv.hfree]
        rw [Nat.mod_eq_of_lt (show N - (g.a - g.l) + 1 < W32 by
          show _ < 4294967296
          omega)]
        omega
      · intro i hi
        show descInv N g.a g.u (g.l + 1) g.tags (s.ring i)
          (Function.update s.data (g.l % N) { buf := 0, data := 0 } i) i
        rw [Function.update_apply]
        by_cases hieq : i = g.l % N
        · rw [if_pos hieq]
          constructor
          · intro hax
            exfalso
            have := Nat.mod_le g.l N
            omega
          · intro _
            refine ⟨g.l, hla, inv.hal, hieq.symm, ?_⟩
            unfold slotSpec
            rw [if_neg (by omega)]
            constructor
            · rw [hieq]
              exact hflags
            · rw [if_pos (Nat.lt_succ_self g.l)]
        · rw [if_neg hieq]
          obtain ⟨hnever', hsome'⟩ := inv.hslots i hi
          refine ⟨hnever', ?_⟩
          intro hilt
          obtain ⟨mo, hm', hm2', hmmod', hspec'⟩ := hsome' hilt
          refine ⟨mo, hm', hm2', hmmod', ?_⟩
          refine slotSpec_reclaim_other g.u g.l g.tags mo N _ _ hspec' ?_
          intro hmm
          subst hmm
          exact hieq hmmod'.symm
  · left
    unfold slotSpec at hspec
    rw [if_pos (by omega)] at hspec
    obtain ⟨hflags, _⟩ := hspec
    have h0 : (s.ring (mask N s.guest.last_used_idx)).flags &&& DESC_HW ≠ 0 := by
      rw [hhead, hflags, hw_flag_and_HW _ (wgN_mem N g.l)]
      decide
    constructor
    · simp [get_buf, h0]
    · simp [get_buf, h0]

end RingC

namespace RingC

/-! ### Unfolding equations for the trace observers -/

theorem pubTags_publish_cons (N : Nat) (s : RingState) (len buf datap fl : Nat)
    (rest : List Op) :
    pubTags N s (.publish len buf datap fl :: rest)
      = (if (add_inbuf N len buf datap fl s).2 then [datap] else [])
        ++ pubTags N (applyOp N s (.publish len buf datap fl)) rest := rfl

theorem pubTags_reclaim_cons (N : Nat) (s : RingState) (rest : List Op) :
    pubTags N s (.reclaim :: rest) = pubTags N (applyOp N s .reclaim) rest := rfl

theorem pubTags_use_cons (N : Nat) (s : RingState) (rest : List Op) :
    pubTags N s (.useBuf :: rest) = pubTags N (applyOp N s .useBuf) rest := rfl

theorem recTags_publish_cons (N : Nat) (s : RingState) (len buf datap fl : Nat)
    (rest : List Op) :
    recTags N s (.publish len buf datap fl :: rest)
      = recTags N (applyOp N s (.publish len buf datap fl)) rest := rfl

theorem recTags_use_cons (N : Nat) (s : RingState) (rest : List Op) :
    recTags N s (.useBuf :: rest) = recTags N (applyOp N s .useBuf) rest := rfl

theorem recTags_reclaim_none (N : Nat) (s : RingState) (rest : List Op)
    (h : (get_buf N s ⟨0, 0, 0⟩).2.2 = none) :
    recTags N s (.reclaim :: rest) = recTags N (applyOp N s .reclaim) rest := by
  show (match (get_buf N s ⟨0, 0, 0⟩).2.2 with
        | some v => [v]
        | none => []) ++ recTags N (applyOp N s .reclaim) rest = _
  rw [h]
  rfl

theorem recTags_reclaim_some (N : Nat) (s : RingState) (rest : List Op) (v : Nat)
    (h : (get_buf N s ⟨0, 0, 0⟩).2.2 = some v) :
    recTags N s (.reclaim :: rest)
      = v :: recTags N (applyOp N s .reclaim) rest := by
  show (match (get_buf N s ⟨0, 0, 0⟩).2.2 with
        | some v => [v]
        | none => []) ++ recTags N (applyOp N s .reclaim) rest = _
  rw [h]
  rfl

theorem recSafeFrom_publish_cons (N : Nat) (s : RingState) (len buf datap fl : Nat)
    (rest : List Op) :
    recSafeFrom N s (.publish len buf datap fl :: rest)
      = recSafeFrom N (applyOp N s (.publish len buf datap fl)) rest := by
  show (true && _) = _
  rw [Bool.true_and]

theorem recSafeFrom_use_cons (N : Nat) (s : RingState) (rest : List Op) :
    recSafeFrom N s (.useBuf :: rest)
      = recSafeFrom N (applyOp N s .useBuf) rest := by
  show (true && _) = _
  rw [Bool.true_and]

theorem recSafeFrom_reclaim_cons (N : Nat) (s : RingState) (rest : List Op) :
    recSafeFrom N s (.reclaim :: rest)
      = (decide (s.guest.last_used_idx ≠ s.guest.avail_idx)
          && recSafeFrom N (applyOp N s .reclaim) rest) := rfl

/-- The master simulation: from any invariant state, a trace that never
reclaims from an empty ring ends in an invariant state whose tag list
extends the original by the newly published tags, and the values returned
along the way by the reclaim success path are exactly the published tags
from position `g.l` up to the final reclaim count. -/
theorem inv_master (N sz : Nat) (hN : N = 2 ^ sz) (hsz : sz ≤ 16) :
    ∀ (ops : List Op) (s : RingState) (g : Ghost), Inv N s g →
      recSafeFrom N s ops = true →
      ∃ g' : Ghost, Inv N (runState N s ops) g'
        ∧ g'.tags = g.tags ++ pubTags N s ops
        ∧ g.l ≤ g'.l ∧ g'.l ≤ g'.u ∧ g'.u ≤ g'.tags.length
        ∧ recTags N s ops = (g'.tags.take g'.l).drop g.l := by
  intro ops
  induction ops with
  | nil =>
    intro s g inv _
    refine ⟨g, inv, by simp [pubTags], le_refl _, inv.hlu, ?_, ?_⟩
    · rw [inv.hlen]
      exact inv.hua
    · show ([] : List Nat) = (g.tags.take g.l).drop g.l
      symm
      exact List.drop_eq_nil_iff.mpr (by rw [List.length_take]; omega)
  | cons op rest ih =>
    intro s g inv hsafe
    rw [runState_cons]
    cases op with
    | publish len buf datap fl =>
      rw [recSafeFrom_publish_cons] at hsafe
      by_cases hfull : s.guest.num_free = 0
      · have happ : applyOp N s (.publish len buf datap fl) = s := by
          simp [applyOp, add_inbuf, hfull]
        rw [happ] at hsafe ⊢
        obtain ⟨g', invg', htags, hll, hlu', hut, hrec⟩ := ih s g inv hsafe
        refine ⟨g', invg', ?_, hll, hlu', hut, ?_⟩
        · rw [htags, pubTags_publish_cons]
          have hfb : (add_inbuf N len buf datap fl s).2 = false := by
            simp [add_inbuf, hfull]
          rw [hfb, happ]
          rfl
        · rw [recTags_publish_cons, happ]
          exact hrec
      · obtain ⟨hok, hinv'⟩ := inv_publish_ok N sz hN hsz s g inv len buf datap fl hfull
        obtain ⟨g', invg', htags, hll, hlu', hut, hrec⟩ := ih _ _ hinv' hsafe
        have htags' : g'.tags = (g.tags ++ [datap])
            ++ pubTags N (applyOp N s (.publish len buf datap fl)) rest := htags
        have hll' : g.l ≤ g'.l := hll
        have hrec' : recTags N (applyOp N s (.publish len buf datap fl)) rest
            = (g'.tags.take g'.l).drop g.l := hrec
        refine ⟨g', invg', ?_, hll', hlu', hut, ?_⟩
        · rw [htags', pubTags_publish_cons, hok]
          simp
        · rw [recTags_publish_cons]
          exact hrec'
    | reclaim =>
      rw [recSafeFrom_reclaim_cons, Bool.and_eq_true] at hsafe
      obtain ⟨h1, h2⟩ := hsafe
      have hne : s.guest.last_used_idx ≠ s.guest.avail_idx := of_decide_eq_true h1
      rcases inv_reclaim N sz hN hsz s g inv ⟨0, 0, 0⟩ hne with
        ⟨hnone, hstate⟩ | ⟨hsome, hinv'⟩
      · have happ : applyOp N s .reclaim = s := hstate
        rw [happ] at h2 ⊢
        obtain ⟨g', invg', htags, hll, hlu', hut, hrec⟩ := ih s g inv h2
        refine ⟨g', invg', ?_, hll, hlu', hut, ?_⟩
        · rw [htags, pubTags_reclaim_cons, happ]
        · rw [recTags_reclaim_none N s rest hnone, happ]
          exact hrec
      · obtain ⟨g', invg', htags, hll, hlu', hut, hrec⟩ := ih _ _ hinv' h2
        have htags' : g'.tags = g.tags ++ pubTags N (applyOp N s .reclaim) rest := htags
        have hll' : g.l + 1 ≤ g'.l := hll
        have hrec' : recTags N (applyOp N s .reclaim) rest
            = (g'.tags.take g'.l).drop (g.l + 1) := hrec
        have hlt1 : g.l < g.tags.length := by
          have ha := inv.hua
          have hb := inv.hlen
          have hc : g.l + 1 ≤ g.u := hinv'.hlu
          omega
        refine ⟨g', invg', ?_, by omega, hlu', hut, ?_⟩
        · rw [htags', pubTags_reclaim_cons]
        · rw [recTags_reclaim_some N s rest _ hsome, hrec',
            take_drop_cons g'.tags g'.l g.l (by omega)
              (by rw [htags', List.length_append]; omega)]
          congr 1
          rw [htags', getD_append_lt _ _ _ hlt1]
    | useBuf =>
      rw [recSafeFrom_use_cons] at hsafe
      rcases inv_use N sz hN hsz s g inv ⟨0, 0, 0⟩ with ⟨_, hinv'⟩ | ⟨_, hinv'⟩
      · obtain ⟨g', invg', htags, hll, hlu', hut, hrec⟩ := ih _ _ hinv' hsafe
        have htags0 : g'.tags = g.tags ++ pubTags N (applyOp N s .useBuf) rest := htags
        have hrec0 : recTags N (applyOp N s .useBuf) rest
            = (g'.tags.take g'.l).drop g.l := hrec
        refine ⟨g', invg', ?_, hll, hlu', hut, ?_⟩
        · rw [htags0, pubTags_use_cons]
        · rw [recTags_use_cons]
          exact hrec0
      · obtain ⟨g', invg', htags, hll, hlu', hut, hrec⟩ := ih _ _ hinv' hsafe
        have htags' : g'.tags = g.tags ++ pubTags N (applyOp N s .useBuf) rest := htags
        have hll' : g.l ≤ g'.l := hll
        have hrec' : recTags N (applyOp N s .useBuf) rest
            = (g'.tags.take g'.l).drop g.l := hrec
        refine ⟨g', invg', ?_, hll', hlu', hut, ?_⟩
        · rw [htags', pubTags_use_cons]
        · rw [recTags_use_cons]
          exact hrec'

end RingC

namespace RingC

/-- The freshly allocated ring satisfies the invariant with zero counters. -/
theorem inv_init (N : Nat) : Inv N (alloc_ring N) ⟨0, 0, 0, []⟩ := by
  refine ⟨Nat.le_refl 0, Nat.le_refl 0, Nat.zero_le _, rfl, rfl, rfl, rfl, rfl,
    rfl, Or.inr rfl, ?_, fun i _ => rfl, ?_⟩
  · intro h
    exact absurd (Nat.zero_mod N) h
  · intro i hi
    exact ⟨fun _ => ⟨rfl, rfl⟩, fun h0 => absurd h0 (Nat.not_lt_zero i)⟩

theorem gw_small (N j : Nat) (h1 : 1 ≤ j) (h2 : j ≤ N) : gw N j = 0 := by
  unfold gw wgN
  rw [if_neg (by omega), Nat.div_eq_of_lt (by omega)]
  simp

/-- State after `k ≤ N` publishes into a fresh ring: the ghost state is
`k` published entries, none completed or reclaimed. -/
theorem pub_lap (N sz : Nat) (hN : N = 2 ^ sz) (hsz : sz ≤ 16) (L B D F : Nat) :
    ∀ k, k ≤ N → Inv N (runState N (alloc_ring N)
        (List.replicate k (.publish L B D F))) ⟨k, 0, 0, List.replicate k D⟩ := by
  intro k
  induction k with
  | zero => intro _; exact inv_init N
  | succ n ihn =>
    intro hk
    have invn := ihn (by omega)
    have hfv : (runState N (alloc_ring N)
        (List.replicate n (.publish L B D F))).guest.num_free = N - (n - 0) :=
      invn.hfree
    have hfree : (runState N (alloc_ring N)
        (List.replicate n (.publish L B D F))).guest.num_free ≠ 0 := by
      rw [hfv]
      omega
    have hstep := (inv_publish_ok N sz hN hsz _ _ invn L B D F hfree).2
    have h3 : Inv N (runState N (runState N (alloc_ring N)
        (List.replicate n (.publish L B D F))) [.publish L B D F])
        ⟨n + 1, 0, 0, List.replicate n D ++ [D]⟩ := hstep
    rw [← List.replicate_succ'] at h3
    rw [List.replicate_succ', runState_append]
    exact h3

end RingC

/-- Counterexample to C3 as stated: with capacity 2, a trace in which
publish is never invoked with a zero free count but a reclaim is issued on
the empty ring.  The spurious reclaim succeeds (returning NULL) and shifts
the reclaim cursor, after which the genuinely published tags 11 and 22 are
returned in the order 22, 11 — not the publish order. -/
theorem c3_fifo_cex :
    RingC.pubSafeFrom 2 (RingC.alloc_ring 2) c3CexOps = true
    ∧ RingC.pubTags 2 (RingC.alloc_ring 2) c3CexOps = [11, 22]
    ∧ RingC.recTags 2 (RingC.alloc_ring 2) c3CexOps = [0, 22, 11]
    ∧ (RingC.recTags 2 (RingC.alloc_ring 2) c3CexOps).filter
        (fun v => decide (v ≠ 0)) = [22, 11]
    ∧ ¬ ([22, 11] : List Nat).Sublist [11, 22] := by
  refine ⟨by decide, by decide, by decide, by decide, by decide⟩

/-- C3 amended: for any trace of publishes, completions and reclaims in
which publish is never invoked with a zero free count *and reclaim is never
invoked while the two guest cursors coincide* (that is, while every
published buffer has already been reclaimed), the values returned by the
reclaim success path are exactly a leading segment of the published tags in
publish order. -/
theorem c3_fifo_amended (N sz : Nat) (ops : List RingC.Op) (hN : N = 2 ^ sz)
    (hsz : sz ≤ 16)
    (hpub : RingC.pubSafeFrom N (RingC.alloc_ring N) ops = true)
    (hrec : RingC.recSafeFrom N (RingC.alloc_ring N) ops = true) :
    ∃ k, RingC.recTags N (RingC.alloc_ring N) ops
      = (RingC.pubTags N (RingC.alloc_ring N) ops).take k := by
  obtain ⟨g', invg', htags, hll, hlu', hut, hrec'⟩ :=
    RingC.inv_master N sz hN hsz ops (RingC.alloc_ring N) ⟨0, 0, 0, []⟩
      (RingC.inv_init N) hrec
  refine ⟨g'.l, ?_⟩
  have htags' : g'.tags = [] ++ RingC.pubTags N (RingC.alloc_ring N) ops := htags
  rw [List.nil_append] at htags'
  have hrec2 : RingC.recTags N (RingC.alloc_ring N) ops
      = (g'.tags.take g'.l).drop 0 := hrec'
  rw [List.drop_zero] at hrec2
  rw [hrec2, htags']

/-- Witness for C3 at capacity 2, with two publishes, two completions and
two reclaims. -/
theorem c3_fifo_amended_witness :
    ∃ k, RingC.recTags 2 (RingC.alloc_ring 2) c3OkOps
      = (RingC.pubTags 2 (RingC.alloc_ring 2) c3OkOps).take k :=
  c3_fifo_amended 2 1 c3OkOps rfl (by decide) (by decide) (by decide)

/-- Counterexample to C4 as stated: with capacity 1, the single-operation
trace consisting of one reclaim of the empty ring bumps the free count to 2,
which exceeds the capacity, so no count of consumer-owned slots can restore
`free + owned = capacity`; the 32-bit in-flight count even wraps to
`2^32 - 1`. -/
theorem c4_conservation_cex :
    (RingC.runState 1 (RingC.alloc_ring 1) [.reclaim]).guest.num_free = 2
    ∧ ¬ (RingC.runState 1 (RingC.alloc_ring 1) [.reclaim]).guest.num_free ≤ 1
    ∧ RingC.sub32 (RingC.runState 1 (RingC.alloc_ring 1) [.reclaim]).guest.avail_idx
        (RingC.runState 1 (RingC.alloc_ring 1) [.reclaim]).guest.last_used_idx
      = 4294967295 := by
  refine ⟨by decide, by decide, by decide⟩

/-- C4 amended: for traces that never reclaim while all published buffers
are already reclaimed, the free count plus the number of in-flight buffers
(the 32-bit difference of the two guest cursors) always equals the
capacity; and — unconditionally — `add_inbuf` reports RingFull exactly when
the free count is zero. -/
theorem c4_conservation_amended (N sz : Nat) (ops : List RingC.Op)
    (hN : N = 2 ^ sz) (hsz : sz ≤ 16)
    (hrec : RingC.recSafeFrom N (RingC.alloc_ring N) ops = true) :
    ((RingC.runState N (RingC.alloc_ring N) ops).guest.num_free
      + RingC.sub32 (RingC.runState N (RingC.alloc_ring N) ops).guest.avail_idx
          (RingC.runState N (RingC.alloc_ring N) ops).guest.last_used_idx = N)
    ∧ ∀ (len buf datap fl : Nat) (t : RingC.RingState),
        ((RingC.add_inbuf N len buf datap fl t).2 = false
          ↔ t.guest.num_free = 0) := by
  constructor
  · obtain ⟨g', invg', _, _, _, _, _⟩ :=
      RingC.inv_master N sz hN hsz ops (RingC.alloc_ring N) ⟨0, 0, 0, []⟩
        (RingC.inv_init N) hrec
    rw [invg'.hfree, invg'.havail, invg'.hlast]
    have h1 := invg'.hlu
    have h2 := invg'.hua
    have h3 := invg'.hal
    have h2p : (2 : Nat) ^ 16 = 65536 := by norm_num
    have hNW : N ≤ 65536 := by
      rw [hN, ← h2p]
      exact Nat.pow_le_pow_right (by omega) hsz
    show N - (g'.a - g'.l) + RingC.sub32 (g'.a % RingC.W32) (g'.l % RingC.W32) = N
    unfold RingC.sub32
    simp only [RingC.W32]
    omega
  · intro len buf datap fl t
    by_cases h : t.guest.num_free = 0 <;> simp [RingC.add_inbuf, h]

/-- Witness for C4 at capacity 2 on a publish–complete–reclaim trace. -/
theorem c4_conservation_amended_witness :
    ((RingC.runState 2 (RingC.alloc_ring 2) c3OkOps).guest.num_free
      + RingC.sub32 (RingC.runState 2 (RingC.alloc_ring 2) c3OkOps).guest.avail_idx
          (RingC.runState 2 (RingC.alloc_ring 2) c3OkOps).guest.last_used_idx = 2)
    ∧ ∀ (len buf datap fl : Nat) (t : RingC.RingState),
        ((RingC.add_inbuf 2 len buf datap fl t).2 = false
          ↔ t.guest.num_free = 0) :=
  c4_conservation_amended 2 1 c3OkOps rfl (by decide) (by decide)

/-- C5: generation correctness across wraps.  With capacity `N = 2^sz`,
after exactly `N` publishes from the initial state the producer
generation bit has flipped exactly once (at the very first publish of the
lap); and on a concrete capacity-4 ring driven for three full laps, the
ownership-plus-generation test of the consumer accepts each freshly published
slot, rejects the head slot before the lap's entries are published (stale
from the previous lap or never filled), and all 12 tags flow through in
order. -/
theorem c5_generation (N sz : Nat) (hN : N = 2 ^ sz) (hsz : sz ≤ 16) :
    (∃! j, j < N ∧ wrapAfterPubs N (j + 1) ≠ wrapAfterPubs N j)
    ∧ RingC.pubTags 4 (RingC.alloc_ring 4) (lapOps 10 ++ lapOps 20 ++ lapOps 30)
        = [11, 12, 13, 14, 21, 22, 23, 24, 31, 32, 33, 34]
    ∧ RingC.recTags 4 (RingC.alloc_ring 4) (lapOps 10 ++ lapOps 20 ++ lapOps 30)
        = [11, 12, 13, 14, 21, 22, 23, 24, 31, 32, 33, 34]
    ∧ (RingC.use_buf 4 (RingC.alloc_ring 4) ⟨0, 0, 0⟩).2.2 = false
    ∧ (RingC.use_buf 4 (RingC.runState 4 (RingC.alloc_ring 4) (lapOps 10))
        ⟨0, 0, 0⟩).2.2 = false
    ∧ (RingC.use_buf 4 (RingC.runState 4 (RingC.alloc_ring 4)
        (lapOps 10 ++ lapOps 20)) ⟨0, 0, 0⟩).2.2 = false
    ∧ (RingC.use_buf 4 (RingC.runState 4 (RingC.alloc_ring 4)
        (lapOps 10 ++ lapOps 20 ++ lapOps 30)) ⟨0, 0, 0⟩).2.2 = false
    ∧ (RingC.use_buf 4 (RingC.runState 4 (RingC.alloc_ring 4)
        (lapOps 10 ++ [.publish 5 100 21 0])) ⟨0, 0, 0⟩).2.2 = true := by
  refine ⟨?_, by decide, by decide, by decide, by decide, by decide, by decide,
    by decide⟩
  have hpos : 0 < N := by rw [hN]; exact Nat.two_pow_pos sz
  have hwk : ∀ k, k ≤ N → wrapAfterPubs N k = RingC.gw N k := by
    intro k hk
    exact (RingC.pub_lap N sz hN hsz 5 9 9 0 k hk).hgw
  refine ⟨0, ⟨⟨hpos, ?_⟩, ?_⟩⟩
  · rw [hwk 1 hpos, hwk 0 (Nat.zero_le _), RingC.gw_small N 1 (le_refl 1) hpos]
    simp [RingC.gw, RingC.DESC_WRAP]
  · rintro j ⟨hj, hflip⟩
    by_contra hj0
    have hj1 : 1 ≤ j := by omega
    apply hflip
    rw [hwk (j + 1) (by omega), hwk j (by omega),
      RingC.gw_small N (j + 1) (by omega) (by omega),
      RingC.gw_small N j hj1 (by omega)]

/-- Witness for C5 at capacity 4. -/
theorem c5_generation_witness :
    (∃! j, j < 4 ∧ wrapAfterPubs 4 (j + 1) ≠ wrapAfterPubs 4 j)
    ∧ RingC.pubTags 4 (RingC.alloc_ring 4) (lapOps 10 ++ lapOps 20 ++ lapOps 30)
        = [11, 12, 13, 14, 21, 22, 23, 24, 31, 32, 33, 34]
    ∧ RingC.recTags 4 (RingC.alloc_ring 4) (lapOps 10 ++ lapOps 20 ++ lapOps 30)
        = [11, 12, 13, 14, 21, 22, 23, 24, 31, 32, 33, 34]
    ∧ (RingC.use_buf 4 (RingC.alloc_ring 4) ⟨0, 0, 0⟩).2.2 = false
    ∧ (RingC.use_buf 4 (RingC.runState 4 (RingC.alloc_ring 4) (lapOps 10))
        ⟨0, 0, 0⟩).2.2 = false
    ∧ (RingC.use_buf 4 (RingC.runState 4 (RingC.alloc_ring 4)
        (lapOps 10 ++ lapOps 20)) ⟨0, 0, 0⟩).2.2 = false
    ∧ (RingC.use_buf 4 (RingC.runState 4 (RingC.alloc_ring 4)
        (lapOps 10 ++ lapOps 20 ++ lapOps 30)) ⟨0, 0, 0⟩).2.2 = false
    ∧ (RingC.use_buf 4 (RingC.runState 4 (RingC.alloc_ring 4)
        (lapOps 10 ++ [.publish 5 100 21 0])) ⟨0, 0, 0⟩).2.2 = true :=
  c5_generation 4 2 rfl (by decide)
